import Mathlib

/-!
Verification of the truncated-BPTT language-model training notebook
(`docs/examples/language_model/language_model.ipynb`).

The notebook's own code (`detach`, `evaluate`, `train`, and the hyperparameter
constants) is embedded directly below.  The library routine
`bptt_batchify` is invoked by the notebook but its source is not part of the
provided files, so it is modelled from the specification document
(section 4.1 "Batchifier" and section 3 "Batched dataset").

Conventions: token ids are natural numbers, numeric tensor contents are
rationals (the notebook's Python-float comparisons used in the claims are
exact at the decimal values involved), and a tensor window is a time-major
list of rows, each row a list over the batch dimension.
-/

namespace LMNotebook

/-! ### Batchifier (modelled from the spec)

`bptt_batchify(vocab, bptt, batch_size, last_batch='discard')` turns a flat
token-id sequence into `(input, target)` windows. -/

/-- Modelled from the spec: the stream matrix built by `bptt_batchify`
(library code not under `src/`).  "Produce floor(N/B) rows arranged into B
parallel streams": row `t`, column `b` holds the token at position
`b * (N / B) + t` of the flat sequence, i.e. stream `b` is the `b`-th
contiguous chunk of length `N / B`. -/
def bpttMatrix (tokens : List ℕ) (B : ℕ) : List (List ℕ) :=
  let n := tokens.length / B
  (List.range n).map fun t => (List.range B).map fun b => tokens.getD (b * n + t) 0

/-- Modelled from the spec: a window of `T` consecutive rows of the stream
matrix starting at row `i`. -/
def bpttWindow (tokens : List ℕ) (B T i : ℕ) : List (List ℕ) :=
  ((bpttMatrix tokens B).drop i).take T

/-- Modelled from the spec: `bptt_batchify` with `last_batch='discard'`.
The streams are sliced into consecutive non-overlapping windows of length
`T`; the target window is the input window shifted one row down the stream;
the last partial window is discarded, so exactly `(N / B - 1) / T` full
`(input, target)` pairs remain (natural-number division). -/
def bptt_batchify (tokens : List ℕ) (T B : ℕ) :
    List (List (List ℕ) × List (List ℕ)) :=
  let n := tokens.length / B
  (List.range ((n - 1) / T)).map fun k =>
    (bpttWindow tokens B T (k * T), bpttWindow tokens B T (k * T + 1))

/-- Element access into a window: row `t`, batch column `b`. -/
def winElem (w : List (List ℕ)) (t b : ℕ) : ℕ :=
  (w.getD t []).getD b 0

theorem bpttMatrix_length (tokens : List ℕ) (B : ℕ) :
    (bpttMatrix tokens B).length = tokens.length / B := by
  simp [bpttMatrix]

theorem bpttMatrix_row_length (tokens : List ℕ) (B : ℕ)
    (row : List ℕ) (hrow : row ∈ bpttMatrix tokens B) :
    row.length = B := by
  simp only [bpttMatrix, List.mem_map, List.mem_range] at hrow
  obtain ⟨t, -, rfl⟩ := hrow
  simp

theorem bpttWindow_length (tokens : List ℕ) (B T i : ℕ)
    (h : i + T ≤ tokens.length / B) :
    (bpttWindow tokens B T i).length = T := by
  simp only [bpttWindow, List.length_take, List.length_drop, bpttMatrix_length]
  omega

theorem bpttWindow_row_length (tokens : List ℕ) (B T i : ℕ)
    (row : List ℕ) (hrow : row ∈ bpttWindow tokens B T i) :
    row.length = B := by
  have h1 : row ∈ (bpttMatrix tokens B).drop i := List.mem_of_mem_take hrow
  exact bpttMatrix_row_length tokens B row (List.mem_of_mem_drop h1)

theorem bptt_batchify_length (tokens : List ℕ) (T B : ℕ) :
    (bptt_batchify tokens T B).length = (tokens.length / B - 1) / T := by
  simp [bptt_batchify]

/-- If `k` indexes a produced window pair, both windows fit inside the stream
matrix: `k * T + 1 + T ≤ N / B`. -/
theorem window_fits (tokens : List ℕ) (T B k : ℕ) (hT : 1 ≤ T)
    (hk : k < (tokens.length / B - 1) / T) :
    k * T + 1 + T ≤ tokens.length / B := by
  have h1 : k + 1 ≤ (tokens.length / B - 1) / T := hk
  have h2 : (k + 1) * T ≤ ((tokens.length / B - 1) / T) * T :=
    Nat.mul_le_mul_right T h1
  have h3 : ((tokens.length / B - 1) / T) * T ≤ tokens.length / B - 1 :=
    Nat.div_mul_le_self _ T
  have h4 : (k + 1) * T ≤ tokens.length / B - 1 := le_trans h2 h3
  rw [Nat.add_mul, Nat.one_mul] at h4
  omega

theorem bpttMatrix_elem (tokens : List ℕ) (B t b : ℕ)
    (ht : t < tokens.length / B) (hb : b < B) :
    winElem (bpttMatrix tokens B) t b =
      tokens.getD (b * (tokens.length / B) + t) 0 := by
  have hlen : t < (bpttMatrix tokens B).length := by
    rw [bpttMatrix_length]; exact ht
  unfold winElem
  rw [List.getD_eq_getElem _ _ hlen]
  simp only [bpttMatrix, List.getElem_map, List.getElem_range]
  have hb' : b < ((List.range B).map
      fun b => tokens.getD (b * (tokens.length / B) + t) 0).length := by
    simpa using hb
  rw [List.getD_eq_getElem _ _ hb']
  simp

theorem bpttWindow_elem (tokens : List ℕ) (B T i t b : ℕ)
    (ht : t < T) (hin : i + t < tokens.length / B) :
    winElem (bpttWindow tokens B T i) t b =
      winElem (bpttMatrix tokens B) (i + t) b := by
  have hlen : t < (bpttWindow tokens B T i).length := by
    simp only [bpttWindow, List.length_take, List.length_drop, bpttMatrix_length]
    omega
  have hmat : i + t < (bpttMatrix tokens B).length := by
    rw [bpttMatrix_length]; exact hin
  unfold winElem
  rw [List.getD_eq_getElem _ _ hlen, List.getD_eq_getElem _ _ hmat]
  simp [bpttWindow]

theorem bptt_batchify_getD (tokens : List ℕ) (T B k : ℕ)
    (hk : k < (tokens.length / B - 1) / T) :
    (bptt_batchify tokens T B).getD k ([], []) =
      (bpttWindow tokens B T (k * T), bpttWindow tokens B T (k * T + 1)) := by
  have hlen : k < (bptt_batchify tokens T B).length := by
    rw [bptt_batchify_length]; exact hk
  rw [List.getD_eq_getElem _ _ hlen]
  simp [bptt_batchify]

/-- Claim C1, counterexample: the claim's count formula
`floor((N // B - 1) / T)` is evaluated as the claim writes it, with
floor division over the integers.  For the empty corpus with `B = T = 1`
the batchifier yields 0 pairs while the formula gives `-1`, so the claim's
universally quantified count statement is false as stated: a sequence of
pairs cannot have length `-1`. -/
theorem c1_count_formula_counterexample :
    ((bptt_batchify [] 1 1).length : ℤ) = 0 ∧
    Int.fdiv ((([] : List ℕ).length : ℤ) / 1 - 1) 1 = -1 := by
  decide

/-- Claim C1 (amended): for `B ≥ 1`, `T ≥ 1` and a corpus of at least `B`
tokens, `bptt_batchify` with `last_batch='discard'` yields exactly
`floor((N // B - 1) / T)` window pairs, and every pair consists of an input
and a target window of shape `(T, B)` (T rows of B columns each).  (For
`N < B` it instead yields nothing; see C9.) -/
theorem c1_batchify_count_and_shapes (tokens : List ℕ) (T B : ℕ)
    (hB : 1 ≤ B) (hT : 1 ≤ T) (hNB : B ≤ tokens.length) :
    ((bptt_batchify tokens T B).length : ℤ) =
      Int.fdiv ((tokens.length / B : ℕ) - 1 : ℤ) T ∧
    ∀ p ∈ bptt_batchify tokens T B,
      p.1.length = T ∧ p.2.length = T ∧
      (∀ row ∈ p.1, row.length = B) ∧ (∀ row ∈ p.2, row.length = B) := by
  have hn : 1 ≤ tokens.length / B := (Nat.one_le_div_iff hB).mpr hNB
  constructor
  · rw [bptt_batchify_length]
    have hcast : ((tokens.length / B : ℕ) - 1 : ℤ) =
        ((tokens.length / B - 1 : ℕ) : ℤ) := by omega
    rw [hcast, Int.fdiv_eq_ediv _ (by exact_mod_cast Nat.zero_le T)]
    exact_mod_cast (Int.natCast_div _ _).symm
  · intro p hp
    simp only [bptt_batchify, List.mem_map, List.mem_range] at hp
    obtain ⟨k, hk, rfl⟩ := hp
    have hfit := window_fits tokens T B k hT hk
    refine ⟨bpttWindow_length tokens B T _ (by omega),
            bpttWindow_length tokens B T _ (by omega),
            fun row hrow => bpttWindow_row_length tokens B T _ row hrow,
            fun row hrow => bpttWindow_row_length tokens B T _ row hrow⟩

/-- Claim C1, witness: the spec's end-to-end scenario.  Corpus
"a b c d a b c d" numericalized as `[0, 1, 2, 3, 0, 1, 2, 3]`, `B = 2`,
`T = 2`: the batchifier yields exactly one window pair and both windows
have shape `(2, 2)`. -/
theorem c1_batchify_witness :
    (((bptt_batchify [0, 1, 2, 3, 0, 1, 2, 3] 2 2).length : ℤ) =
      Int.fdiv ((([0, 1, 2, 3, 0, 1, 2, 3] : List ℕ).length / 2 : ℕ) - 1 : ℤ) 2 ∧
     ∀ p ∈ bptt_batchify [0, 1, 2, 3, 0, 1, 2, 3] 2 2,
       p.1.length = 2 ∧ p.2.length = 2 ∧
       (∀ row ∈ p.1, row.length = 2) ∧ (∀ row ∈ p.2, row.length = 2)) ∧
    (bptt_batchify [0, 1, 2, 3, 0, 1, 2, 3] 2 2).length = 1 :=
  ⟨c1_batchify_count_and_shapes [0, 1, 2, 3, 0, 1, 2, 3] 2 2
     (by decide) (by decide) (by decide), by decide⟩

/-- Claim C4: for every produced `(input, target)` window pair `k`, every
time index `t < T` and batch column `b < B`, the target element is the
token one position after the input element within the same stream of the
original sequence (stream `b` occupies positions `b*(N/B) .. b*(N/B)+N/B-1`),
and inside the window the target row `t` equals the input row `t+1`. -/
theorem c4_target_is_shifted_input (tokens : List ℕ) (T B k t b : ℕ)
    (hT : 1 ≤ T) (hb : b < B) (ht : t < T)
    (hk : k < (tokens.length / B - 1) / T) :
    winElem ((bptt_batchify tokens T B).getD k ([], [])).1 t b =
      tokens.getD (b * (tokens.length / B) + (k * T + t)) 0 ∧
    winElem ((bptt_batchify tokens T B).getD k ([], [])).2 t b =
      tokens.getD (b * (tokens.length / B) + (k * T + t) + 1) 0 ∧
    (t + 1 < T →
      winElem ((bptt_batchify tokens T B).getD k ([], [])).2 t b =
        winElem ((bptt_batchify tokens T B).getD k ([], [])).1 (t + 1) b) := by
  have hfit := window_fits tokens T B k hT hk
  rw [bptt_batchify_getD tokens T B k hk]
  have hin : k * T + t < tokens.length / B := by omega
  have htgt : (k * T + 1) + t < tokens.length / B := by omega
  have e1 : winElem (bpttWindow tokens B T (k * T)) t b =
      tokens.getD (b * (tokens.length / B) + (k * T + t)) 0 := by
    rw [bpttWindow_elem tokens B T _ t b ht hin,
        bpttMatrix_elem tokens B _ b hin hb]
  have e2 : winElem (bpttWindow tokens B T (k * T + 1)) t b =
      tokens.getD (b * (tokens.length / B) + (k * T + t) + 1) 0 := by
    rw [bpttWindow_elem tokens B T _ t b ht htgt,
        bpttMatrix_elem tokens B _ b htgt hb]
    ring_nf
  refine ⟨e1, e2, fun ht1 => ?_⟩
  rw [e2, bpttWindow_elem tokens B T _ (t + 1) b ht1 (by omega),
      bpttMatrix_elem tokens B _ b (by omega) hb]
  ring_nf

/-- Claim C4, witness: in the scenario corpus `[0,1,2,3,0,1,2,3]` with
`B = 2`, `T = 2`, window `k = 0`, time `t = 0`, column `b = 0`: the input
element is token `0`, the target element is the next stream token, and the
target row 0 equals the input row 1. -/
theorem c4_target_is_shifted_input_witness :
    winElem ((bptt_batchify [0, 1, 2, 3, 0, 1, 2, 3] 2 2).getD 0 ([], [])).1 0 0 =
      ([0, 1, 2, 3, 0, 1, 2, 3] : List ℕ).getD 0 0 ∧
    winElem ((bptt_batchify [0, 1, 2, 3, 0, 1, 2, 3] 2 2).getD 0 ([], [])).2 0 0 =
      ([0, 1, 2, 3, 0, 1, 2, 3] : List ℕ).getD 1 0 ∧
    winElem ((bptt_batchify [0, 1, 2, 3, 0, 1, 2, 3] 2 2).getD 0 ([], [])).2 0 0 =
      winElem ((bptt_batchify [0, 1, 2, 3, 0, 1, 2, 3] 2 2).getD 0 ([], [])).1 1 0 := by
  have h := c4_target_is_shifted_input [0, 1, 2, 3, 0, 1, 2, 3] 2 2 0 0 0
    (by decide) (by decide) (by decide) (by decide)
  exact ⟨h.1, h.2.1, h.2.2 (by decide)⟩

/-- Claim C9: when the corpus has fewer tokens than the batch size
(`N < B`), the batchifier yields nothing at all. -/
theorem c9_batchify_small_corpus_empty (tokens : List ℕ) (T B : ℕ)
    (h : tokens.length < B) : bptt_batchify tokens T B = [] := by
  have hn : tokens.length / B = 0 := Nat.div_eq_of_lt h
  simp [bptt_batchify, hn]

/-- Claim C9, witness: a one-token corpus with batch size 2 yields an empty
sequence of window pairs. -/
theorem c9_batchify_small_corpus_empty_witness :
    ([0] : List ℕ).length < 2 ∧ bptt_batchify [0] 5 2 = [] :=
  ⟨by decide, c9_batchify_small_corpus_empty [0] 5 2 (by decide)⟩

/-! ### Hidden state and `detach`

Notebook cell:
```
def detach(hidden):
    if isinstance(hidden, (tuple, list)):
        hidden = [detach(i) for i in hidden]
    else:
        hidden = hidden.detach()
    return hidden
```
An `NDArray` is modelled by its numeric contents plus a flag recording
whether it is linked into the autograd graph; `.detach()` returns an array
with the same values and the linkage removed. -/

structure NDArray where
  vals : List ℚ
  inGraph : Bool
deriving DecidableEq

def NDArray.detach (t : NDArray) : NDArray :=
  { vals := t.vals, inGraph := false }

mutual
inductive Hidden where
  | arr (t : NDArray) : Hidden
  | tup (hs : HiddenSeq) : Hidden
  | lst (hs : HiddenSeq) : Hidden
inductive HiddenSeq where
  | nil : HiddenSeq
  | cons (h : Hidden) (tl : HiddenSeq) : HiddenSeq
end

mutual
/-- The notebook's `detach`: a tuple or list maps to the Python list of the
recursively detached children, anything else to `hidden.detach()`. -/
def detach : Hidden → Hidden
  | .arr t => .arr t.detach
  | .tup hs => .lst (detachSeq hs)
  | .lst hs => .lst (detachSeq hs)
def detachSeq : HiddenSeq → HiddenSeq
  | .nil => .nil
  | .cons h tl => .cons (detach h) (detachSeq tl)
end

mutual
/-- All numeric values of a hidden-state structure, flattened in order. -/
def valuesH : Hidden → List ℚ
  | .arr t => t.vals
  | .tup hs => valuesSeq hs
  | .lst hs => valuesSeq hs
def valuesSeq : HiddenSeq → List ℚ
  | .nil => []
  | .cons h tl => valuesH h ++ valuesSeq tl
end

mutual
/-- No `tup` (Python tuple) node occurs anywhere in the structure. -/
def noTupleNode : Hidden → Bool
  | .arr _ => true
  | .tup _ => false
  | .lst hs => noTupleNodeSeq hs
def noTupleNodeSeq : HiddenSeq → Bool
  | .nil => true
  | .cons h tl => noTupleNode h && noTupleNodeSeq tl
end

mutual
/-- Every array leaf has been removed from the autograd graph. -/
def allDetached : Hidden → Bool
  | .arr t => !t.inGraph
  | .tup hs => allDetachedSeq hs
  | .lst hs => allDetachedSeq hs
def allDetachedSeq : HiddenSeq → Bool
  | .nil => true
  | .cons h tl => allDetached h && allDetachedSeq tl
end

/-- The root of the structure is a Python list node. -/
def isListNode : Hidden → Bool
  | .lst _ => true
  | _ => false

mutual
theorem valuesH_detach : ∀ h : Hidden, valuesH (detach h) = valuesH h
  | .arr t => rfl
  | .tup hs => by simp [detach, valuesH, valuesSeq_detachSeq hs]
  | .lst hs => by simp [detach, valuesH, valuesSeq_detachSeq hs]
theorem valuesSeq_detachSeq : ∀ l : HiddenSeq, valuesSeq (detachSeq l) = valuesSeq l
  | .nil => rfl
  | .cons h tl => by
      simp [detachSeq, valuesSeq, valuesH_detach h, valuesSeq_detachSeq tl]
end

mutual
theorem allDetached_detach : ∀ h : Hidden, allDetached (detach h) = true
  | .arr t => rfl
  | .tup hs => by simp [detach, allDetached, allDetachedSeq_detachSeq hs]
  | .lst hs => by simp [detach, allDetached, allDetachedSeq_detachSeq hs]
theorem allDetachedSeq_detachSeq :
    ∀ l : HiddenSeq, allDetachedSeq (detachSeq l) = true
  | .nil => rfl
  | .cons h tl => by
      simp [detachSeq, allDetachedSeq, allDetached_detach h,
            allDetachedSeq_detachSeq tl]
end

mutual
theorem noTupleNode_detach : ∀ h : Hidden, noTupleNode (detach h) = true
  | .arr t => rfl
  | .tup hs => by simp [detach, noTupleNode, noTupleNodeSeq_detachSeq hs]
  | .lst hs => by simp [detach, noTupleNode, noTupleNodeSeq_detachSeq hs]
theorem noTupleNodeSeq_detachSeq :
    ∀ l : HiddenSeq, noTupleNodeSeq (detachSeq l) = true
  | .nil => rfl
  | .cons h tl => by
      simp [detachSeq, noTupleNodeSeq, noTupleNode_detach h,
            noTupleNodeSeq_detachSeq tl]
end

/-- Claim C5: `detach` preserves the numeric values of an arbitrarily nested
hidden state exactly, so any forward computation that depends only on those
values gives an identical result on the detached state; what changes is only
the gradient-graph linkage, which is removed from every leaf. -/
theorem c5_detach_preserves_values (h : Hidden) (forward : List ℚ → List ℚ) :
    valuesH (detach h) = valuesH h ∧
    forward (valuesH (detach h)) = forward (valuesH h) ∧
    allDetached (detach h) = true :=
  ⟨valuesH_detach h, congrArg forward (valuesH_detach h), allDetached_detach h⟩

/-- Claim C10: `detach` does not preserve container types.  Both a tuple and
a list node come back as a Python list node, no tuple node survives anywhere
in the output at any depth, and the numeric values are unchanged. -/
theorem c10_detach_tuples_become_lists (h : Hidden) (hs : HiddenSeq) :
    isListNode (detach (Hidden.tup hs)) = true ∧
    isListNode (detach (Hidden.lst hs)) = true ∧
    noTupleNode (detach h) = true ∧
    valuesH (detach h) = valuesH h :=
  ⟨rfl, rfl, noTupleNode_detach h, valuesH_detach h⟩

/-! ### `evaluate`

Notebook cell:
```
def evaluate(model, data_source, ctx):
    total_L = 0.0
    ntotal = 0
    hidden = model.begin_state(batch_size, func=mx.nd.zeros, ctx=ctx)
    for i, (data, target) in enumerate(data_source):
        output, hidden = model(data, hidden)
        L = loss(output.reshape(-3, -1), target.reshape(-1))
        total_L += mx.nd.sum(L).asscalar()
        ntotal += L.size
    return total_L / ntotal
```
The model is embedded as an explicit parameter vector together with a pure
forward function reading it; `begin_state(func=mx.nd.zeros)` is the all-zero
state vector.  The loss function returns the list of per-token losses
(`L.size` is its length). -/

structure LMBatch where
  data : List (List ℕ)
  target : List (List ℕ)
deriving DecidableEq

structure LModel where
  params : List ℚ
  stateDim : ℕ
  forwardFn : List ℚ → List (List ℕ) → List ℚ → List ℚ × List ℚ

structure EvalState where
  total_L : ℚ
  ntotal : ℕ
  hidden : List ℚ
  params : List ℚ

/-- One iteration of the `for i, (data, target) in enumerate(data_source)`
loop of `evaluate`: a forward pass, then accumulation of the summed loss and
the token count; the loop body assigns only `hidden`, `total_L`, `ntotal`. -/
def evalStep (forwardFn : List ℚ → List (List ℕ) → List ℚ → List ℚ × List ℚ)
    (lossFn : List ℚ → List (List ℕ) → List ℚ)
    (st : EvalState) (batch : LMBatch) : EvalState :=
  let out := forwardFn st.params batch.data st.hidden
  let L := lossFn out.1 batch.target
  { total_L := st.total_L + L.sum
    ntotal := st.ntotal + L.length
    hidden := out.2
    params := st.params }

/-- The notebook's `evaluate`, returning the mean loss together with the
final loop state. -/
def evaluate (m : LModel) (lossFn : List ℚ → List (List ℕ) → List ℚ)
    (ds : List LMBatch) : ℚ × EvalState :=
  let st0 : EvalState := ⟨0, 0, List.replicate m.stateDim 0, m.params⟩
  let st := ds.foldl (evalStep m.forwardFn lossFn) st0
  (st.total_L / (st.ntotal : ℚ), st)

/-- Closed form of the per-batch loss lists: the forward passes are chained
through the carried hidden state starting from `h`. -/
def batchLosses (forwardFn : List ℚ → List (List ℕ) → List ℚ → List ℚ × List ℚ)
    (lossFn : List ℚ → List (List ℕ) → List ℚ) (params : List ℚ) :
    List ℚ → List LMBatch → List (List ℚ)
  | _, [] => []
  | h, b :: rest =>
      let out := forwardFn params b.data h
      lossFn out.1 b.target :: batchLosses forwardFn lossFn params out.2 rest

theorem evaluate_foldl_spec
    (fw : List ℚ → List (List ℕ) → List ℚ → List ℚ × List ℚ)
    (lossFn : List ℚ → List (List ℕ) → List ℚ) (params : List ℚ) :
    ∀ (ds : List LMBatch) (st : EvalState), st.params = params →
      (ds.foldl (evalStep fw lossFn) st).total_L =
        st.total_L +
          ((batchLosses fw lossFn params st.hidden ds).map List.sum).sum ∧
      (ds.foldl (evalStep fw lossFn) st).ntotal =
        st.ntotal +
          ((batchLosses fw lossFn params st.hidden ds).map List.length).sum ∧
      (ds.foldl (evalStep fw lossFn) st).params = params := by
  intro ds
  induction ds with
  | nil => intro st hst; simp [batchLosses, hst]
  | cons b rest ih =>
      intro st hst
      have hstep := ih (evalStep fw lossFn st b) (by simp [evalStep, hst])
      simp only [List.foldl_cons]
      refine ⟨?_, ?_, hstep.2.2⟩
      · rw [hstep.1]
        simp [evalStep, batchLosses, hst, add_assoc]
      · rw [hstep.2.1]
        simp [evalStep, batchLosses, hst, add_assoc]

/-- Claim C6: `evaluate` returns the sum over all batches of the summed
per-token losses divided by the total number of tokens, where the per-batch
losses arise from forward passes whose hidden state starts at the all-zero
state and is carried from each batch to the next. -/
theorem c6_evaluate_weighted_mean_loss (m : LModel)
    (lossFn : List ℚ → List (List ℕ) → List ℚ) (ds : List LMBatch) :
    (evaluate m lossFn ds).1 =
      ((batchLosses m.forwardFn lossFn m.params
          (List.replicate m.stateDim 0) ds).map List.sum).sum /
      (((batchLosses m.forwardFn lossFn m.params
          (List.replicate m.stateDim 0) ds).map List.length).sum : ℚ) := by
  have h := evaluate_foldl_spec m.forwardFn lossFn m.params ds
    ⟨0, 0, List.replicate m.stateDim 0, m.params⟩ rfl
  simp only [evaluate]
  rw [h.1, h.2.1]
  simp

/-- Claim C7: `evaluate` performs no parameter update: the model parameters
carried through the whole evaluation loop are identical to the parameters
before the call. -/
theorem c7_evaluate_preserves_params (m : LModel)
    (lossFn : List ℚ → List (List ℕ) → List ℚ) (ds : List LMBatch) :
    (evaluate m lossFn ds).2.params = m.params := by
  have h := evaluate_foldl_spec m.forwardFn lossFn m.params ds
    ⟨0, 0, List.replicate m.stateDim 0, m.params⟩ rfl
  simpa [evaluate] using h.2.2

/-! ### `train`: epoch-level validation, checkpointing and learning-rate decay

Notebook cell (per-epoch tail of `train`):
```
val_L = evaluate(model, val_data, context[0])
if val_L < best_val:
    best_val = val_L
    test_L = evaluate(model, test_data, context[0])
    model.save_params('{}_{}-{}.params'.format(model_name, dataset_name, epoch))
    print('test loss %.2f, test ppl %.2f'%(test_L, math.exp(test_L)))
else:
    lr = lr*0.25
    print('Learning rate now %f'%(lr))
    trainer.set_learning_rate(lr)
```
with `best_val = float("Inf")` before the first epoch, `model_name =
'standard_lstm_lm_200'`, `dataset_name = 'wikitext-2'`.  Validation losses
are rationals; the float constant `0.25` is exactly `1/4`. -/

def model_name : String := "standard_lstm_lm_200"

def dataset_name : String := "wikitext-2"

structure TrainState where
  best_val : Option ℚ
  lr : ℚ

/-- `val_L < best_val` where `none` stands for the initial `float("Inf")`. -/
def improved (best : Option ℚ) (val_L : ℚ) : Bool :=
  match best with
  | none => true
  | some b => decide (val_L < b)

/-- `'{}_{}-{}.params'.format(model_name, dataset_name, epoch)`. -/
def snapshotName (epoch : ℕ) : String :=
  model_name ++ "_" ++ dataset_name ++ "-" ++ toString epoch ++ ".params"

structure EpochResult where
  val_L : ℚ
  snapshot : Option String
  test_evaluated : Bool
  lr_after : ℚ

/-- The per-epoch `if val_L < best_val: ... else: ...` branch of `train`:
returns what happened in the epoch and the updated `(best_val, lr)` state. -/
def epochAdjust (epoch : ℕ) (st : TrainState) (val_L : ℚ) :
    EpochResult × TrainState :=
  if improved st.best_val val_L then
    ({ val_L := val_L, snapshot := some (snapshotName epoch),
       test_evaluated := true, lr_after := st.lr },
     { best_val := some val_L, lr := st.lr })
  else
    let lr' := st.lr * (1 / 4)
    ({ val_L := val_L, snapshot := none, test_evaluated := false,
       lr_after := lr' },
     { best_val := st.best_val, lr := lr' })

def epochFold : ℕ → TrainState → List ℚ → List EpochResult
  | _, _, [] => []
  | epoch, st, v :: rest =>
      (epochAdjust epoch st v).1 ::
        epochFold (epoch + 1) (epochAdjust epoch st v).2 rest

/-- The epoch-level results of `train` on a given list of validation losses,
starting from `best_val = Inf` and the initial learning rate. -/
def trainSchedule (valLosses : List ℚ) (lr0 : ℚ) : List EpochResult :=
  epochFold 0 { best_val := none, lr := lr0 } valLosses

/-- Claim C2: with initial learning rate 20 and validation losses 5.0, 5.2,
4.8 over three epochs, the learning rate held by the optimizer after each
epoch's adjustment is 20, 5, 5: the second epoch's non-improvement triggers
exactly one multiplication by 1/4 (= 0.25), and the third epoch improves on
the best value 5.0, so no further decay occurs. -/
theorem c2_lr_schedule :
    (trainSchedule [5, 26 / 5, 24 / 5] 20).map EpochResult.lr_after =
      [20, 5, 5] := by
  norm_num [trainSchedule, epochFold, epochAdjust, improved]

/-- Claim C3: in every epoch exactly one of two actions happens after the
validation evaluation.  If the validation loss improves on the best value
seen so far, a parameter snapshot named by the model, dataset and epoch
identifiers is written, the test split is evaluated, and the learning rate
is untouched; otherwise no snapshot is written, no test evaluation runs, and
the learning rate is multiplied by 1/4. -/
theorem c3_epoch_checkpoint_or_decay (epoch : ℕ) (st : TrainState) (val_L : ℚ) :
    (improved st.best_val val_L = true →
      (epochAdjust epoch st val_L).1.snapshot = some (snapshotName epoch) ∧
      (epochAdjust epoch st val_L).1.test_evaluated = true ∧
      (epochAdjust epoch st val_L).1.lr_after = st.lr ∧
      (epochAdjust epoch st val_L).2.lr = st.lr ∧
      (epochAdjust epoch st val_L).2.best_val = some val_L) ∧
    (improved st.best_val val_L = false →
      (epochAdjust epoch st val_L).1.snapshot = none ∧
      (epochAdjust epoch st val_L).1.test_evaluated = false ∧
      (epochAdjust epoch st val_L).1.lr_after = st.lr * (1 / 4) ∧
      (epochAdjust epoch st val_L).2.lr = st.lr * (1 / 4) ∧
      (epochAdjust epoch st val_L).2.best_val = st.best_val) := by
  constructor <;> intro h <;> simp [epochAdjust, h]

/-- Claim C3, witness: at epoch 0 with best value 5 a validation loss of 4
improves, so the snapshot `standard_lstm_lm_200_wikitext-2-0.params` is
written, the test split is evaluated and the learning rate stays 20; at
epoch 1 a validation loss of 6 does not improve, so nothing is persisted,
no test evaluation runs, and the learning rate is decayed to `20 * (1/4)`. -/
theorem c3_epoch_checkpoint_or_decay_witness :
    ((epochAdjust 0 ⟨some 5, 20⟩ 4).1.snapshot = some (snapshotName 0) ∧
     (epochAdjust 0 ⟨some 5, 20⟩ 4).1.test_evaluated = true ∧
     (epochAdjust 0 ⟨some 5, 20⟩ 4).1.lr_after = 20 ∧
     (epochAdjust 0 ⟨some 5, 20⟩ 4).2.lr = 20 ∧
     (epochAdjust 0 ⟨some 5, 20⟩ 4).2.best_val = some 4) ∧
    ((epochAdjust 1 ⟨some 5, 20⟩ 6).1.snapshot = none ∧
     (epochAdjust 1 ⟨some 5, 20⟩ 6).1.test_evaluated = false ∧
     (epochAdjust 1 ⟨some 5, 20⟩ 6).1.lr_after = 20 * (1 / 4) ∧
     (epochAdjust 1 ⟨some 5, 20⟩ 6).2.lr = 20 * (1 / 4) ∧
     (epochAdjust 1 ⟨some 5, 20⟩ 6).2.best_val = some 5) :=
  ⟨(c3_epoch_checkpoint_or_decay 0 ⟨some 5, 20⟩ 4).1 (by decide),
   (c3_epoch_checkpoint_or_decay 1 ⟨some 5, 20⟩ 6).2 (by decide)⟩

/-! ### `train`: loss / perplexity logging

Notebook cell (logging sites of `train`):
```
total_L += sum([mx.nd.sum(l).asscalar() for l in Ls])
n_total += data.size
if i % log_interval == 0 and i > 0:
    cur_L = total_L / n_total
    print('[Epoch %d Batch %d/%d] loss %.2f, ppl %.2f, ...'%(
        epoch, i, len(train_data), cur_L, math.exp(cur_L), ...))
    total_L, n_total = 0.0, 0
...
print('[Epoch %d] ... valid loss %.2f, valid ppl %.2f'%(..., val_L, math.exp(val_L)))
...
print('test loss %.2f, test ppl %.2f'%(test_L, math.exp(test_L)))
```
A `LogEntry` records the mean loss that is printed together with the value
passed to `math.exp` for the perplexity printed next to it. -/

structure LogEntry where
  loss : ℚ
  ppl_arg : ℚ
deriving DecidableEq

structure BatchLogState where
  total_L : ℚ
  n_total : ℕ
  logs : List LogEntry

/-- One inner-loop iteration of `train` restricted to its logging effect:
accumulate the batch's summed loss `bL` and token count `bn`; on batches
with `i % log_interval == 0 and i > 0` emit a log entry with the mean loss
since the last log point and reset the accumulators. -/
def batchLogStep (log_interval : ℕ) (st : BatchLogState) (i : ℕ) (bL : ℚ)
    (bn : ℕ) : BatchLogState :=
  let total := st.total_L + bL
  let n := st.n_total + bn
  if i % log_interval = 0 ∧ 0 < i then
    let cur := total / (n : ℚ)
    { total_L := 0, n_total := 0,
      logs := st.logs ++ [{ loss := cur, ppl_arg := cur }] }
  else
    { total_L := total, n_total := n, logs := st.logs }

def intervalLogsAux (log_interval : ℕ) :
    ℕ → BatchLogState → List (ℚ × ℕ) → BatchLogState
  | _, st, [] => st
  | i, st, b :: rest =>
      intervalLogsAux log_interval (i + 1)
        (batchLogStep log_interval st i b.1 b.2) rest

/-- The `[Epoch _ Batch _/_] loss _, ppl _` entries produced by one epoch's
batch loop, given each batch's summed loss and token count. -/
def intervalLogs (log_interval : ℕ) (batches : List (ℚ × ℕ)) : List LogEntry :=
  (intervalLogsAux log_interval 0 ⟨0, 0, []⟩ batches).logs

/-- What one epoch contributes to the logs: per-batch summed losses and
token counts, the validation loss, and the loss the test evaluation would
report. -/
structure EpochData where
  batches : List (ℚ × ℕ)
  val_L : ℚ
  test_L : ℚ
deriving DecidableEq

/-- All `(loss, exp-argument)` pairs printed during one epoch: the interval
entries, the validation entry, and — only when validation improved — the
test entry. -/
def epochLogEntries (log_interval : ℕ) (st : TrainState) (e : EpochData) :
    List LogEntry :=
  intervalLogs log_interval e.batches
    ++ [{ loss := e.val_L, ppl_arg := e.val_L }]
    ++ (if improved st.best_val e.val_L then
          [{ loss := e.test_L, ppl_arg := e.test_L }]
        else [])

def trainLogsAux (log_interval : ℕ) :
    ℕ → TrainState → List EpochData → List LogEntry
  | _, _, [] => []
  | epoch, st, e :: rest =>
      epochLogEntries log_interval st e ++
        trainLogsAux log_interval (epoch + 1)
          (epochAdjust epoch st e.val_L).2 rest

/-- Every `(loss, exp-argument)` pair printed by a full run of `train`. -/
def trainLogs (log_interval : ℕ) (epochsData : List EpochData) (lr0 : ℚ) :
    List LogEntry :=
  trainLogsAux log_interval 0 { best_val := none, lr := lr0 } epochsData

theorem intervalLogsAux_ppl_arg (log_interval : ℕ) :
    ∀ (bs : List (ℚ × ℕ)) (i : ℕ) (st : BatchLogState),
      (∀ e ∈ st.logs, e.ppl_arg = e.loss) →
      ∀ e ∈ (intervalLogsAux log_interval i st bs).logs, e.ppl_arg = e.loss := by
  intro bs
  induction bs with
  | nil => intro i st h; simpa [intervalLogsAux] using h
  | cons b rest ih =>
      intro i st h
      refine ih (i + 1) _ ?_
      intro e he
      by_cases hc : i % log_interval = 0 ∧ 0 < i
      · simp only [batchLogStep, if_pos hc, List.mem_append,
          List.mem_singleton] at he
        rcases he with he | he
        · exact h e he
        · rw [he]
      · simp only [batchLogStep, if_neg hc] at he
        exact h e he

theorem trainLogsAux_ppl_arg (log_interval : ℕ) :
    ∀ (eds : List EpochData) (epoch : ℕ) (st : TrainState),
      ∀ e ∈ trainLogsAux log_interval epoch st eds, e.ppl_arg = e.loss := by
  intro eds
  induction eds with
  | nil => intro epoch st e he; simp [trainLogsAux] at he
  | cons ed rest ih =>
      intro epoch st e he
      simp only [trainLogsAux, List.mem_append] at he
      rcases he with he | he
      · simp only [epochLogEntries, List.mem_append] at he
        rcases he with (he | he) | he
        · exact intervalLogsAux_ppl_arg log_interval ed.batches 0 ⟨0, 0, []⟩
            (by intro x hx; simp at hx) e he
        · simp only [List.mem_singleton] at he; rw [he]
        · rcases Decidable.em (improved st.best_val ed.val_L = true) with hi | hi
          · rw [if_pos hi] at he
            simp only [List.mem_singleton] at he; rw [he]
          · rw [if_neg hi] at he
            simp at he
      · exact ih (epoch + 1) _ e he

/-- Claim C8: every perplexity printed by `train` — in the per-interval
batch logs, the per-epoch validation line, and the test line after an
improving epoch — is `exp` applied to exactly the mean cross-entropy loss
printed next to it, for any loss value ≥ 0. -/
theorem c8_ppl_is_exp_of_reported_loss (log_interval : ℕ)
    (epochsData : List EpochData) (lr0 : ℚ) (e : LogEntry)
    (he : e ∈ trainLogs log_interval epochsData lr0) (_hnn : 0 ≤ e.loss) :
    e.ppl_arg = e.loss ∧
    Real.exp (e.ppl_arg : ℝ) = Real.exp (e.loss : ℝ) := by
  have h := trainLogsAux_ppl_arg log_interval epochsData 0
    { best_val := none, lr := lr0 } e he
  exact ⟨h, by rw [h]⟩

/-- Claim C8, witness: a run with one epoch, no logged batch interval,
validation loss 1 and test loss 2 prints the validation perplexity as
`exp 1` against the validation loss 1. -/
theorem c8_ppl_is_exp_of_reported_loss_witness :
    (⟨1, 1⟩ : LogEntry) ∈ trainLogs 100 [⟨[], 1, 2⟩] 20 ∧
    (0 : ℚ) ≤ (1 : ℚ) ∧
    ((⟨1, 1⟩ : LogEntry).ppl_arg = (⟨1, 1⟩ : LogEntry).loss ∧
     Real.exp (((⟨1, 1⟩ : LogEntry).ppl_arg : ℚ) : ℝ) =
       Real.exp (((⟨1, 1⟩ : LogEntry).loss : ℚ) : ℝ)) :=
  ⟨by decide, by decide,
   c8_ppl_is_exp_of_reported_loss 100 [⟨[], 1, 2⟩] 20 ⟨1, 1⟩
     (by decide) (by decide)⟩

end LMNotebook
